import Mathlib

/-!
Verification development for the cross-venue arbitrage spread logger.

The JavaScript sources are shallowly embedded: JS numbers are modelled as
exact rationals (`ℚ`), BigInt native token amounts as `ℤ`/`ℕ`, millisecond
timestamps as `ℤ`, and stateful code as explicit state passing (the poller's
async interleaving is a small-step relation).  Each definition mirrors one
source function and keeps its name.
-/

/-- JS `Number.prototype.toFixed(f)` on an exact rational: round to the
nearest multiple of `10 ^ (-f)`, ties away from zero for positive values
(ECMA: of the two closest candidates, the larger is picked). -/
def jsToFixed (f : ℕ) (q : ℚ) : ℚ := (⌊q * 10 ^ f + 1 / 2⌋ : ℚ) / 10 ^ f

/-- `ethers.parseUnits(s, d)`: scale a decimal string (here an exact
rational with at most `d` fractional digits) to integer native units. -/
def parseUnits (q : ℚ) (d : ℕ) : ℤ := ⌊q * 10 ^ d⌋

/-- `ethers.formatUnits(a, d)`: native integer units back to a decimal value. -/
def formatUnits (a : ℤ) (d : ℕ) : ℚ := (a : ℚ) / 10 ^ d

namespace SpreadLogger

/-! ## Spike / persistence tracker (`trackPersistence`, spread-logger.js)

The tracker map `spikeTracker` is keyed by the composite string
`pairName_direction_notional`; the code only ever touches the entry of the
key being observed, so we model the state of a single key
(`Option SpikeState`, `none` = Idle) and thread it explicitly. -/

/-- One entry of `spikeTracker`: `{ startBlock, count, maxSpread, startTime }`. -/
structure SpikeState where
  startBlock : ℕ
  count : ℕ
  maxSpread : ℚ
  startTime : ℤ
deriving DecidableEq

/-- The observable emitted by the `🔥 PERSISTENT` branch: run length in
blocks, maximum spread of the run, and wall-clock seconds
(`((now - startTime) / 1000).toFixed(0)`).  Its emission is exactly when the
`(pair, notional)` persistence counter `persistent2` is incremented. -/
structure PersistenceEvent where
  duration : ℕ
  maxSpread : ℚ
  wallSec : ℚ
deriving DecidableEq

/-- One observation fed to the tracker: the parsed spread percentage, the
current block, and the wall-clock time `Date.now()`. -/
structure Obs where
  spread : ℚ
  block : ℕ
  time : ℤ
deriving DecidableEq

/-- The logging threshold `0.3` used by `if (spread >= 0.3)`. -/
def spikeThreshold : ℚ := 3 / 10

/-- `trackPersistence` (spread-logger.js lines 354-378) for one key:
above threshold creates or extends the spike; below threshold emits the
event when `count >= 1 && count >= 2` holds and deletes the entry
unconditionally. -/
def trackPersistence (st : Option SpikeState) (o : Obs) :
    Option SpikeState × Option PersistenceEvent :=
  if spikeThreshold ≤ o.spread then
    match st with
    | none => (some ⟨o.block, 1, o.spread, o.time⟩, none)
    | some s => (some ⟨s.startBlock, s.count + 1, max s.maxSpread o.spread, s.startTime⟩, none)
  else
    match st with
    | some s =>
        (none,
          if 1 ≤ s.count then
            if 2 ≤ s.count then
              some ⟨s.count, s.maxSpread, jsToFixed 0 (((o.time - s.startTime : ℤ) : ℚ) / 1000)⟩
            else none
          else none)
    | none => (none, none)

/-- Fold `trackPersistence` over a sequence of observations for one key,
collecting the emitted events in order. -/
def runTrack (st : Option SpikeState) (obs : List Obs) :
    Option SpikeState × List PersistenceEvent :=
  match obs with
  | [] => (st, [])
  | o :: rest =>
      let p := trackPersistence st o
      let r := runTrack p.1 rest
      (r.1, p.2.toList ++ r.2)

/-- Maximum spread of a nonempty run, as the tracker accumulates it
(`Math.max` folded from the first observation's spread). -/
def runMax : List Obs → ℚ
  | [] => 0
  | o :: t => t.foldl (fun m x => max m x.spread) o.spread

/-- Start time of a run (the `startTime` recorded at creation). -/
def runStart : List Obs → ℤ
  | [] => 0
  | o :: _ => o.time

theorem runTrack_append (st : Option SpikeState) (l1 l2 : List Obs) :
    runTrack st (l1 ++ l2) =
      ((runTrack (runTrack st l1).1 l2).1,
        (runTrack st l1).2 ++ (runTrack (runTrack st l1).1 l2).2) := by
  induction l1 generalizing st with
  | nil => simp [runTrack]
  | cons o rest ih => simp [runTrack, ih, List.append_assoc]

theorem runTrack_above (l : List Obs) (hab : ∀ o ∈ l, spikeThreshold ≤ o.spread)
    (sb : ℕ) (c : ℕ) (m : ℚ) (t0 : ℤ) :
    runTrack (some ⟨sb, c, m, t0⟩) l =
      (some ⟨sb, c + l.length, l.foldl (fun m x => max m x.spread) m, t0⟩, []) := by
  induction l generalizing c m with
  | nil => simp [runTrack]
  | cons o rest ih =>
      have ho : spikeThreshold ≤ o.spread := hab o (by simp)
      have hrest : ∀ x ∈ rest, spikeThreshold ≤ x.spread := fun x hx => hab x (by simp [hx])
      simp only [runTrack, trackPersistence, if_pos ho]
      rw [ih hrest]
      simp [Nat.add_comm, Nat.add_assoc, Nat.add_left_comm]

theorem foldl_max_start_le (t : List Obs) (h : ℚ) :
    h ≤ t.foldl (fun m x => max m x.spread) h := by
  induction t generalizing h with
  | nil => simp
  | cons a t ih => exact le_trans (le_max_left h a.spread) (ih (max h a.spread))

theorem mem_le_foldl_max (t : List Obs) (h : ℚ) :
    ∀ x ∈ t, x.spread ≤ t.foldl (fun m x => max m x.spread) h := by
  induction t generalizing h with
  | nil => simp
  | cons a t ih =>
      intro x hx
      rcases List.mem_cons.mp hx with rfl | hx'
      · exact le_trans (le_max_right h x.spread) (foldl_max_start_le t (max h x.spread))
      · exact ih (max h a.spread) x hx'

theorem foldl_max_mem (t : List Obs) (h : ℚ) :
    t.foldl (fun m x => max m x.spread) h = h ∨
      ∃ x ∈ t, t.foldl (fun m x => max m x.spread) h = x.spread := by
  induction t generalizing h with
  | nil => simp
  | cons a t ih =>
      rcases ih (max h a.spread) with heq | ⟨x, hx, heq⟩
      · rcases max_choice h a.spread with hm | hm
        · left; simp only [List.foldl_cons]; rw [heq, hm]
        · right; exact ⟨a, by simp, by simp only [List.foldl_cons]; rw [heq, hm]⟩
      · right; exact ⟨x, by simp [hx], by simpa using heq⟩

/-- C1.  For one tracker key, a maximal above-threshold run followed by its
first below-threshold observation produces exactly one `PersistenceEvent`
when the run length is at least 2 and none otherwise; the event carries
`duration` equal to the run length and `maxSpread` equal to the maximum
spread of the run (which is attained by some observation and bounds them
all), and the `SpikeState` entry is gone afterwards in every case. -/
theorem trackPersistence_maximal_run (run : List Obs) (below : Obs)
    (hne : run ≠ []) (hab : ∀ o ∈ run, spikeThreshold ≤ o.spread)
    (hb : below.spread < spikeThreshold) :
    runTrack none (run ++ [below]) =
      (none,
        if 2 ≤ run.length then
          [⟨run.length, runMax run,
            jsToFixed 0 (((below.time - runStart run : ℤ) : ℚ) / 1000)⟩]
        else []) ∧
      runMax run ∈ run.map Obs.spread ∧ ∀ o ∈ run, o.spread ≤ runMax run := by
  obtain ⟨o0, rest, rfl⟩ := List.exists_cons_of_ne_nil hne
  have ho0 : spikeThreshold ≤ o0.spread := hab o0 (by simp)
  have hrest : ∀ x ∈ rest, spikeThreshold ≤ x.spread := fun x hx => hab x (by simp [hx])
  refine ⟨?_, ?_, ?_⟩
  · have hstep : trackPersistence none o0 = (some ⟨o0.block, 1, o0.spread, o0.time⟩, none) := by
      simp [trackPersistence, if_pos ho0]
    have hnotb : ¬ spikeThreshold ≤ below.spread := not_le.mpr hb
    rw [runTrack_append]
    have hrun : runTrack none (o0 :: rest) =
        (some ⟨o0.block, 1 + rest.length,
          rest.foldl (fun m x => max m x.spread) o0.spread, o0.time⟩, []) := by
      simp only [runTrack, hstep]
      rw [runTrack_above rest hrest]
      simp
    rw [hrun]
    simp only [runTrack, trackPersistence, if_neg hnotb]
    by_cases h2 : 2 ≤ 1 + rest.length
    · have h1 : 1 ≤ 1 + rest.length := by omega
      have h1' : 1 ≤ rest.length := by omega
      have hlen : 2 ≤ (o0 :: rest).length := by simp; omega
      simp [h1, hlen, h1', runMax, runStart, Nat.add_comm]
    · have hr0 : rest = [] := List.length_eq_zero.mp (by omega)
      subst hr0
      simp [runTrack, runMax]
  · rcases foldl_max_mem rest o0.spread with heq | ⟨x, hx, heq⟩
    · simp [runMax, heq]
    · simp only [runMax, heq]
      exact List.mem_map.mpr ⟨x, by simp [hx], rfl⟩
  · intro o ho
    rcases List.mem_cons.mp ho with rfl | ho'
    · simpa [runMax] using foldl_max_start_le rest o.spread
    · simpa [runMax] using mem_le_foldl_max rest o0.spread o ho'

theorem trackPersistence_maximal_run_witness :
    runTrack none [⟨2/5, 100, 0⟩, ⟨1/2, 101, 60000⟩, ⟨1/5, 102, 120000⟩] =
      (none, [⟨2, 1/2, 120⟩]) ∧
    runTrack none [⟨2/5, 100, 0⟩, ⟨1/10, 101, 60000⟩] = (none, []) := by
  constructor
  · have h := (trackPersistence_maximal_run
      [⟨2/5, 100, 0⟩, ⟨1/2, 101, 60000⟩] ⟨1/5, 102, 120000⟩
      (by simp) (by norm_num [List.forall_mem_cons, spikeThreshold])
      (by norm_num [spikeThreshold])).1
    rw [show ([⟨2/5, 100, 0⟩, ⟨1/2, 101, 60000⟩, ⟨1/5, 102, 120000⟩] : List Obs) =
      [⟨2/5, 100, 0⟩, ⟨1/2, 101, 60000⟩] ++ [⟨1/5, 102, 120000⟩] from rfl, h]
    norm_num [runMax, runStart, jsToFixed, max_def]
  · have h := (trackPersistence_maximal_run
      [⟨2/5, 100, 0⟩] ⟨1/10, 101, 60000⟩
      (by simp) (by norm_num [List.forall_mem_cons, spikeThreshold])
      (by norm_num [spikeThreshold])).1
    rw [show ([⟨2/5, 100, 0⟩, ⟨1/10, 101, 60000⟩] : List Obs) =
      [⟨2/5, 100, 0⟩] ++ [⟨1/10, 101, 60000⟩] from rfl, h]
    norm_num

/-- C9.  A below-threshold observation in the Idle state is a no-op for that
key: no event, no counter increment, state still absent; hence any
all-below-threshold sequence leaves the tracker empty and eventless. -/
theorem trackPersistence_below_threshold_noop (l : List Obs)
    (hbelow : ∀ o ∈ l, o.spread < spikeThreshold) :
    runTrack none l = (none, []) := by
  induction l with
  | nil => simp [runTrack]
  | cons o rest ih =>
      have ho : ¬ spikeThreshold ≤ o.spread := not_le.mpr (hbelow o (by simp))
      have hrest : ∀ x ∈ rest, x.spread < spikeThreshold :=
        fun x hx => hbelow x (by simp [hx])
      simp [runTrack, trackPersistence, if_neg ho, ih hrest]

theorem trackPersistence_below_threshold_noop_witness :
    runTrack none [⟨1/10, 1, 0⟩, ⟨1/5, 2, 1000⟩, ⟨0, 3, 2000⟩, ⟨-1, 4, 3000⟩] =
      (none, []) :=
  trackPersistence_below_threshold_noop _
    (by norm_num [List.forall_mem_cons, spikeThreshold])

/-! ## Algebra quoter schema detection (`quoteAlgebra`)

`quoteAlgebra` probes the two historically deployed call schemas of the
dynamic-fee (Algebra) quoter and caches in the module-global
`algebraAbiVersion` whichever succeeds.  We model the global as an explicit
`Option AlgVariant` threaded through the call, the venue as a deterministic
response map per variant, and additionally record the list of variants
attempted (each `staticCall` site, in order). -/

/-- The two call schemas: `"v1"` (flat args) and `"v2"` (struct). -/
inductive AlgVariant where
  | v1
  | v2
deriving DecidableEq

/-- Failure taxonomy of a quoting call (spec section 4.1).  The JS `catch`
receives an opaque error object and never inspects it; the tags exist so
that properties about rejection *reasons* are statable. -/
inductive QuoteErr where
  | schemaMismatch
  | noRoute
  | revertedCall
  | unreachable
deriving DecidableEq

/-- A stubbed Algebra venue: what its quoter answers to each schema variant. -/
structure AlgebraVenue where
  call : AlgVariant → Except QuoteErr ℕ

/-- `quoteAlgebra` (spread-logger.js lines 171-190): with the cached version
`st` (`none` before detection), try V1 when `st` is `"v1"` or `null`
(rethrowing only when `st` is already `"v1"`), then try V2 when `st` is
`"v2"` or `null`, caching the succeeding variant when `st` was `null`.
Returns (new cached version, call outcome, variants attempted in order). -/
def quoteAlgebra (venue : AlgebraVenue) (st : Option AlgVariant) :
    Option AlgVariant × Except QuoteErr ℕ × List AlgVariant :=
  match st with
  | some .v1 =>
      (match venue.call .v1 with
       | .ok r => (some .v1, .ok r, [.v1])
       | .error e => (some .v1, .error e, [.v1]))
  | some .v2 =>
      (match venue.call .v2 with
       | .ok r => (some .v2, .ok r, [.v2])
       | .error e => (some .v2, .error e, [.v2]))
  | none =>
      (match venue.call .v1 with
       | .ok r => (some .v1, .ok r, [.v1])
       | .error _ =>
         match venue.call .v2 with
         | .ok r => (some .v2, .ok r, [.v1, .v2])
         | .error e2 => (none, .error e2, [.v1, .v2]))

/-- Stub venue whose V1 call is rejected with `noRoute` (a reason that is
explicitly *not* "wrong schema") and whose V2 call succeeds. -/
def noRouteVenue : AlgebraVenue :=
  ⟨fun v => match v with
    | .v1 => .error .noRoute
    | .v2 => .ok 5⟩

/-- C2 counterexample.  The claim says variant B is attempted *only if*
variant A was rejected for reasons consistent with a wrong schema (not
no-liquidity / no-route).  On first use against a venue whose variant-A call
fails with `noRoute`, the code nevertheless attempts variant B: the `catch`
around the V1 probe swallows every error without classifying it. -/
theorem quoteAlgebra_attempts_v2_on_noRoute_cex :
    (quoteAlgebra noRouteVenue none).2.2 = [.v1, .v2] ∧
      noRouteVenue.call .v1 = .error .noRoute ∧
      QuoteErr.noRoute ≠ QuoteErr.schemaMismatch :=
  ⟨rfl, rfl, by decide⟩

/-- C2 amended.  On first use the provider attempts variant A and falls back
to variant B on *any* failure of A (the rejection reason is not inspected);
the succeeding variant is cached and every later call attempts only the
cached variant — never re-attempting the other one — and surfaces a failure
of the cached variant as a genuine quote error without re-running detection;
if both variants fail during detection nothing is cached and variant B's
error is surfaced. -/
theorem quoteAlgebra_detection_cache (venue : AlgebraVenue) (st : Option AlgVariant) :
    (∀ v, st = some v →
      quoteAlgebra venue st = (some v, venue.call v, [v])) ∧
    (st = none → ∀ r, venue.call .v1 = .ok r →
      quoteAlgebra venue none = (some .v1, .ok r, [.v1])) ∧
    (st = none → ∀ e, venue.call .v1 = .error e →
      (∀ r, venue.call .v2 = .ok r →
        quoteAlgebra venue none = (some .v2, .ok r, [.v1, .v2])) ∧
      (∀ e2, venue.call .v2 = .error e2 →
        quoteAlgebra venue none = (none, .error e2, [.v1, .v2]))) := by
  refine ⟨?_, ?_, ?_⟩
  · rintro v rfl
    cases v <;> rcases hv : venue.call _ with r | e <;> simp [quoteAlgebra, hv]
  · rintro rfl r h1
    simp [quoteAlgebra, h1]
  · rintro rfl e h1
    exact ⟨fun r h2 => by simp [quoteAlgebra, h1, h2],
           fun e2 h2 => by simp [quoteAlgebra, h1, h2]⟩

theorem quoteAlgebra_detection_cache_witness :
    quoteAlgebra noRouteVenue (some .v2) = (some .v2, .ok 5, [.v2]) ∧
    quoteAlgebra noRouteVenue none = (some .v2, .ok 5, [.v1, .v2]) :=
  ⟨(quoteAlgebra_detection_cache noRouteVenue (some .v2)).1 .v2 rfl,
   ((quoteAlgebra_detection_cache noRouteVenue none).2.2 rfl .noRoute rfl).1 5 rfl⟩

/-! ## Liquidity Book quoter (`quoteLB`)

The LB V2.2 call contract declares `amountIn` as `uint128`; `quoteLB` clamps
over-large inputs to `2^128 - 1` and still issues the quote.  We model the
on-chain `findBestPathFromAmountIn` as a function from the amount actually
sent to the `amounts` array of the response; the output amount is the last
element. -/

/-- `(1n << 128n) - 1n`, the largest representable `uint128` value. -/
def MAX_UINT128 : ℕ := 2 ^ 128 - 1

/-- The `amounts` field of the LB quoter response (`[amountIn, amountOut]`). -/
structure LBResult where
  amounts : List ℕ

/-- `quoteLB` (spread-logger.js lines 198-211): clamp `amountIn` to
`MAX_UINT128`, call the quoter with the clamped amount, return the last
element of `result.amounts` (`none` only if the response array is empty). -/
def quoteLB (findBestPathFromAmountIn : ℕ → LBResult) (amountIn : ℕ) : Option ℕ :=
  let safeAmountIn := if amountIn > MAX_UINT128 then MAX_UINT128 else amountIn
  let result := findBestPathFromAmountIn safeAmountIn
  result.amounts.getLast?

/-- C7.  For every venue behaviour and every input: the amount actually sent
to the quoter is `min amountIn MAX_UINT128` — so an over-large input is
clamped to the maximum (never wrapped or rejected) and the quote is the one
computed against the clamped amount, while an in-range input is passed
through unchanged. -/
theorem quoteLB_clamps (findBestPathFromAmountIn : ℕ → LBResult) (amountIn : ℕ) :
    quoteLB findBestPathFromAmountIn amountIn =
      (findBestPathFromAmountIn (min amountIn MAX_UINT128)).amounts.getLast? ∧
    min amountIn MAX_UINT128 ≤ MAX_UINT128 ∧
    (amountIn > MAX_UINT128 → min amountIn MAX_UINT128 = MAX_UINT128) ∧
    (amountIn ≤ MAX_UINT128 → min amountIn MAX_UINT128 = amountIn) := by
  refine ⟨?_, min_le_right _ _, fun h => min_eq_right (le_of_lt h),
    fun h => min_eq_left h⟩
  unfold quoteLB
  rcases le_or_lt amountIn MAX_UINT128 with h | h
  · rw [if_neg (not_lt.mpr h), min_eq_left h]
  · rw [if_pos h, min_eq_right (le_of_lt h)]

theorem quoteLB_clamps_witness :
    quoteLB (fun a => ⟨[a, 7]⟩) (2 ^ 130) = some 7 ∧
    (2 : ℕ) ^ 130 > MAX_UINT128 ∧
    min (2 ^ 130) MAX_UINT128 = MAX_UINT128 := by
  have h := quoteLB_clamps (fun a => ⟨[a, 7]⟩) (2 ^ 130)
  have hgt : (2 : ℕ) ^ 130 > MAX_UINT128 := by
    have : (2 : ℕ) ^ 128 - 1 < 2 ^ 128 :=
      Nat.sub_lt (Nat.pos_pow_of_pos 128 (by norm_num)) (by norm_num)
    calc MAX_UINT128 < 2 ^ 128 := this
    _ ≤ 2 ^ 130 := Nat.pow_le_pow_right (by norm_num) (by norm_num)
  exact ⟨by rw [h.1]; rfl, hgt, h.2.2.1 hgt⟩

/-! ## Round-trip evaluator (`calculateRoundTrips`)

`calculateRoundTrips(pair, notionalUSD)` converts the notional to native
units of `token0`, gathers one forward quote per venue (failures retained as
`null`), then for every ordered pair of venue indices `(i, j)` with `i ≠ j`
and a truthy forward output at `i` requests the reverse quote at venue `j`;
a failed reverse quote drops only that combination.  Quoting is abstracted
as a function (the stubbed venue collaborators of the testable properties);
`none` models a thrown quoting error.  Venues are identified by their index
in the pair's venue list; the `dex` name strings only feed the direction
label, modelled as the venue identifiers themselves. -/

/-- A token entry: distinguishing tag, `decimals`, and oracle `priceUSD`. -/
structure Token where
  sym : ℕ
  decimals : ℕ
  priceUSD : ℚ
deriving DecidableEq

/-- A monitored trading pair: the two tokens and the venue identifiers. -/
structure TPair where
  token0 : Token
  token1 : Token
  venues : List ℕ

/-- The quoting collaborator: `getQuote(venue, tokenIn, tokenOut, amountIn)`
returning the output amount, or `none` when the call throws. -/
abbrev QuoteFn := ℕ → Token → Token → ℤ → Option ℤ

/-- The notional conversion of `calculateRoundTrips` (lines 302-305):
`ethers.parseUnits((notionalUSD / t0.priceUSD).toFixed(Math.min(t0.decimals, 8)), t0.decimals)`. -/
def amountIn0 (notionalUSD : ℚ) (t0 : Token) : ℤ :=
  parseUnits (jsToFixed (min t0.decimals 8) (notionalUSD / t0.priceUSD)) t0.decimals

/-- C4 counterexample.  The claim says the conversion rounds *down* at the
asset's precision and never exceeds the exact quotient.  JS `toFixed` rounds
to nearest: at notional $100, reference price $7 and 18 decimals the code
produces `1428571429 * 10^10` native units, which exceeds the exact quotient
`100/7 * 10^18 = 14285714285714285714.28…`. -/
theorem amountIn0_rounds_up_cex :
    ¬ ((amountIn0 100 ⟨0, 18, 7⟩ : ℚ) ≤ 100 / 7 * 10 ^ 18) := by
  have hfloor : (⌊(100 : ℚ) / 7 * 10 ^ 8 + 1 / 2⌋ : ℤ) = 1428571429 := by
    rw [Int.floor_eq_iff]
    norm_num
  have hval : amountIn0 100 ⟨0, 18, 7⟩ = 14285714290000000000 := by
    unfold amountIn0 parseUnits jsToFixed
    simp only [show min (18 : ℕ) 8 = 8 from rfl, hfloor]
    rw [Int.floor_eq_iff]
    norm_num
  rw [hval]
  norm_num

/-- C4 amended.  The conversion divides the notional by the reference price
and rounds to the *nearest* value representable with
`min(decimals, 8)` fractional digits (ties upward, JS `toFixed`), so the
native amount is within half such a unit of the exact quotient — in
particular it can exceed it, but never by more than
`10 ^ (decimals - min(decimals, 8)) / 2` native units. -/
theorem amountIn0_half_ulp (notional : ℚ) (t : Token) :
    |(amountIn0 notional t : ℚ) - notional / t.priceUSD * 10 ^ t.decimals| ≤
      10 ^ (t.decimals - min t.decimals 8) / 2 := by
  have hfd : min t.decimals 8 ≤ t.decimals := min_le_left _ _
  have h10 : (10 : ℚ) ^ t.decimals =
      10 ^ min t.decimals 8 * 10 ^ (t.decimals - min t.decimals 8) := by
    rw [← pow_add]
    congr 1
    omega
  have hx : (0 : ℚ) < 10 ^ min t.decimals 8 := by positivity
  have hval : (amountIn0 notional t : ℚ) =
      (⌊notional / t.priceUSD * 10 ^ min t.decimals 8 + 1 / 2⌋ : ℚ) *
        10 ^ (t.decimals - min t.decimals 8) := by
    unfold amountIn0 parseUnits jsToFixed
    rw [h10]
    rw [show (⌊notional / t.priceUSD * 10 ^ min t.decimals 8 + 1 / 2⌋ : ℚ) /
        10 ^ min t.decimals 8 *
        (10 ^ min t.decimals 8 * 10 ^ (t.decimals - min t.decimals 8)) =
        (⌊notional / t.priceUSD * 10 ^ min t.decimals 8 + 1 / 2⌋ : ℚ) *
        10 ^ (t.decimals - min t.decimals 8) by field_simp; ring]
    rw [show ((⌊notional / t.priceUSD * 10 ^ min t.decimals 8 + 1 / 2⌋ : ℚ) *
        10 ^ (t.decimals - min t.decimals 8)) =
        ((⌊notional / t.priceUSD * 10 ^ min t.decimals 8 + 1 / 2⌋ *
          10 ^ (t.decimals - min t.decimals 8) : ℤ) : ℚ) by push_cast; ring]
    rw [Int.floor_intCast]
  have hn : |(⌊notional / t.priceUSD * 10 ^ min t.decimals 8 + 1 / 2⌋ : ℚ) -
      notional / t.priceUSD * 10 ^ min t.decimals 8| ≤ 1 / 2 := by
    rw [abs_le]
    constructor
    · have := Int.lt_floor_add_one
        (notional / t.priceUSD * 10 ^ min t.decimals 8 + 1 / 2)
      linarith
    · have := Int.floor_le (notional / t.priceUSD * 10 ^ min t.decimals 8 + 1 / 2)
      linarith
  calc |(amountIn0 notional t : ℚ) - notional / t.priceUSD * 10 ^ t.decimals|
      = |(⌊notional / t.priceUSD * 10 ^ min t.decimals 8 + 1 / 2⌋ : ℚ) -
          notional / t.priceUSD * 10 ^ min t.decimals 8| *
          10 ^ (t.decimals - min t.decimals 8) := by
        rw [hval, h10, show notional / t.priceUSD *
          (10 ^ min t.decimals 8 * 10 ^ (t.decimals - min t.decimals 8)) =
          notional / t.priceUSD * 10 ^ min t.decimals 8 *
            10 ^ (t.decimals - min t.decimals 8) by ring,
          ← sub_mul, abs_mul, abs_of_pos (by positivity :
            (0 : ℚ) < 10 ^ (t.decimals - min t.decimals 8))]
    _ ≤ 1 / 2 * 10 ^ (t.decimals - min t.decimals 8) := by
        exact mul_le_mul_of_nonneg_right hn (by positivity)
    _ = 10 ^ (t.decimals - min t.decimals 8) / 2 := by ring

/-- The forward fan-out (lines 310-319): one entry per configured venue, in
order; a throwing quote is *retained* with `amountOut = null` (`none`), not
dropped. -/
def forwardQuotes (quote : QuoteFn) (p : TPair) (a0 : ℤ) : List (ℕ × Option ℤ) :=
  p.venues.map (fun v => (v, quote v p.token0 p.token1 a0))

/-- One element of the `results` array (lines 337-343).  The source stores
`spreadPct`/`netPct` as 4-decimal strings; we keep the computed rational
values (the `spreadPct`, `netPct` locals) — `toFixed(4)` is presentation. -/
structure RoundTrip where
  buyVenue : ℕ
  sellVenue : ℕ
  notionalUSD : ℚ
  inUSD : ℚ
  outUSD : ℚ
  netUSD : ℚ
  spreadPct : ℚ
  netPct : ℚ
deriving DecidableEq

/-- The per-combination result record computation (lines 331-343). -/
def mkTrip (gasCostUSD : ℚ) (p : TPair) (notionalUSD : ℚ) (a0 : ℤ)
    (bv sv : ℕ) (back : ℤ) : RoundTrip :=
  let inUSD := formatUnits a0 p.token0.decimals * p.token0.priceUSD
  let outUSD := formatUnits back p.token0.decimals * p.token0.priceUSD
  let netUSD := outUSD - inUSD - gasCostUSD
  let spreadPct := (outUSD - inUSD) / inUSD * 100
  let netPct := netUSD / inUSD * 100
  ⟨bv, sv, notionalUSD, inUSD, outUSD, netUSD, spreadPct, netPct⟩

/-- The loop body for indices `(i, j)` (lines 322-346): skip `i = j`, skip a
falsy forward output (`null` or `0n`), request the reverse quote at venue
`j` with venue `i`'s forward output, and drop just this combination when the
reverse quote throws. -/
def tripAt (quote : QuoteFn) (gas : ℚ) (p : TPair) (notionalUSD : ℚ) (a0 : ℤ)
    (fq : List (ℕ × Option ℤ)) (i j : ℕ) : Option RoundTrip :=
  if i = j then none else
  match fq[i]?, fq[j]? with
  | some (bv, some out), some (sv, _) =>
      if out = 0 then none
      else (quote sv p.token1 p.token0 out).map (mkTrip gas p notionalUSD a0 bv sv)
  | _, _ => none

/-- `calculateRoundTrips` (spread-logger.js lines 296-349). -/
def calculateRoundTrips (quote : QuoteFn) (gas : ℚ) (p : TPair) (notionalUSD : ℚ) :
    List RoundTrip :=
  if p.token0.priceUSD ≤ 0 then [] else
  let a0 := amountIn0 notionalUSD p.token0
  let fq := forwardQuotes quote p a0
  (List.range fq.length).flatMap (fun i =>
    (List.range fq.length).filterMap (fun j => tripAt quote gas p notionalUSD a0 fq i j))

/-- The reverse-quote call sites: `(i, j, input)` for exactly those loop
iterations that reach `getQuote(sellVenue, t1, t0, buyQ.amountOut)` — the
guards transcribed are `i === j` (`continue`) and `!buyQ.amountOut`
(`continue`, falsy for `null` and for `0n`). -/
def revRequests (fq : List (ℕ × Option ℤ)) : List (ℕ × ℕ × ℤ) :=
  (List.range fq.length).flatMap (fun i =>
    (List.range fq.length).filterMap (fun j =>
      if i = j then none else
      match fq[i]? with
      | some (_, some out) => if out = 0 then none else some (i, j, out)
      | _ => none))

theorem tripAt_eq_some (quote : QuoteFn) (gas : ℚ) (p : TPair) (notionalUSD : ℚ)
    (a0 : ℤ) (fq : List (ℕ × Option ℤ)) (i j : ℕ) (t : RoundTrip) :
    tripAt quote gas p notionalUSD a0 fq i j = some t ↔
      i ≠ j ∧ ∃ bv out sv o2 back,
        fq[i]? = some (bv, some out) ∧ out ≠ 0 ∧ fq[j]? = some (sv, o2) ∧
        quote sv p.token1 p.token0 out = some back ∧
        t = mkTrip gas p notionalUSD a0 bv sv back := by
  by_cases hij : i = j
  · simp [tripAt, hij]
  · rcases hi : fq[i]? with _ | ⟨bv, _ | out⟩
    · simp [tripAt, hij, hi]
    · simp [tripAt, hij, hi]
    · rcases hj : fq[j]? with _ | ⟨sv, o2⟩
      · simp [tripAt, hij, hi, hj]
      · by_cases h0 : out = 0
        · simp [tripAt, hij, hi, hj, h0]
        · simp only [tripAt, if_neg hij, hi, hj, if_neg h0, Option.map_eq_some']
          constructor
          · rintro ⟨back, hq, hback⟩
            exact ⟨hij, bv, out, sv, o2, back, rfl, h0, rfl, hq, hback.symm⟩
          · rintro ⟨-, bv', out', sv', o2', back', hfi, h0', hfj, hq, ht⟩
            injection hfi with h1
            injection h1 with h2 h3
            injection h3 with h4
            subst h2
            subst h4
            injection hfj with h5
            injection h5 with h6 h7
            subst h6
            exact ⟨back', hq, ht.symm⟩

theorem mem_revRequests (fq : List (ℕ × Option ℤ)) (i j : ℕ) (inp : ℤ) :
    (i, j, inp) ∈ revRequests fq ↔
      i ≠ j ∧ j < fq.length ∧ ∃ bv, fq[i]? = some (bv, some inp) ∧ inp ≠ 0 := by
  unfold revRequests
  rw [List.mem_flatMap]
  constructor
  · rintro ⟨i', hi', hmem⟩
    rw [List.mem_filterMap] at hmem
    obtain ⟨j', hj', heq⟩ := hmem
    rw [List.mem_range] at hi' hj'
    by_cases hij : i' = j'
    · simp [hij] at heq
    · rcases hfq : fq[i']? with _ | ⟨bv, _ | out⟩ <;>
        simp only [if_neg hij, hfq] at heq
      · exact absurd heq (by simp)
      · exact absurd heq (by simp)
      · by_cases h0 : out = 0
        · simp [h0] at heq
        · rw [if_neg h0] at heq
          obtain ⟨rfl, rfl, rfl⟩ : i' = i ∧ j' = j ∧ out = inp := by
            simpa using heq
          exact ⟨hij, hj', bv, hfq, h0⟩
  · rintro ⟨hij, hj, bv, hfq, h0⟩
    have hi : i < fq.length := by
      rcases List.getElem?_eq_some.mp hfq with ⟨h, -⟩
      exact h
    refine ⟨i, List.mem_range.mpr hi, ?_⟩
    rw [List.mem_filterMap]
    exact ⟨j, List.mem_range.mpr hj, by simp [if_neg hij, hfq, if_neg h0]⟩

/-- Stub quoting collaborator for the C6 counterexample: venue `10`'s
forward quote *succeeds* with output `0`, venue `20`'s forward quote throws,
and every reverse quote succeeds with output `7`. -/
def zeroFwdQuote : QuoteFn := fun v tin _ _ =>
  if tin.sym = 0 then (if v = 10 then some 0 else none) else some 7

/-- The C6 counterexample pair: two venues `10` and `20`. -/
def zeroFwdPair : TPair := ⟨⟨0, 0, 1⟩, ⟨1, 0, 1⟩, [10, 20]⟩

/-- C6 counterexample.  The claim says a reverse quote is requested for
every ordered pair `(i, j)`, `i ≠ j`, in which venue `i`'s *forward quote
succeeded*.  Venue `10`'s forward quote succeeds with output `0`, the
reverse quote at venue `20` would succeed (output `7`), yet no round trip is
produced and no reverse request is issued for `(0, 1)`: the code's
`!buyQ.amountOut` guard treats the successful zero output like a failure. -/
theorem reverse_skipped_on_zero_forward_cex :
    forwardQuotes zeroFwdQuote zeroFwdPair (amountIn0 5 zeroFwdPair.token0) =
      [(10, some 0), (20, none)] ∧
    zeroFwdQuote 20 zeroFwdPair.token1 zeroFwdPair.token0 0 = some 7 ∧
    calculateRoundTrips zeroFwdQuote 0 zeroFwdPair 5 = [] ∧
    revRequests (forwardQuotes zeroFwdQuote zeroFwdPair
      (amountIn0 5 zeroFwdPair.token0)) = [] := by
  have hfq : forwardQuotes zeroFwdQuote zeroFwdPair (amountIn0 5 zeroFwdPair.token0) =
      [(10, some 0), (20, none)] := rfl
  have hprice : ¬ (zeroFwdPair.token0.priceUSD ≤ 0) := by norm_num [zeroFwdPair]
  refine ⟨hfq, rfl, ?_, ?_⟩
  · simp only [calculateRoundTrips, if_neg hprice, hfq]
    simp [tripAt, List.range_succ, zeroFwdQuote]
  · rw [hfq]
    simp [revRequests, List.range_succ]

/-- C6 amended.  For every pair evaluation with a priced base asset: the
forward result set lists every configured venue exactly once, in order, with
its quote output retained (`none` when the quote failed); a reverse quote is
requested exactly for every ordered pair of indices `(i, j)` with `i ≠ j`
where venue `i`'s forward quote succeeded with a *nonzero* output (a zero
output is treated like a failure by the falsy-check), using that output as
the reverse input; and the returned round-trip list consists of exactly the
requested combinations whose reverse quote succeeded — a reverse failure
removes only its own combination. -/
theorem calculateRoundTrips_characterization (quote : QuoteFn) (gas : ℚ)
    (p : TPair) (notionalUSD : ℚ) (hp : 0 < p.token0.priceUSD) :
    (forwardQuotes quote p (amountIn0 notionalUSD p.token0)).map Prod.fst = p.venues ∧
    (∀ i : ℕ, (forwardQuotes quote p (amountIn0 notionalUSD p.token0))[i]? =
      (p.venues[i]?).map
        (fun v => (v, quote v p.token0 p.token1 (amountIn0 notionalUSD p.token0)))) ∧
    (∀ i j inp,
      (i, j, inp) ∈ revRequests (forwardQuotes quote p (amountIn0 notionalUSD p.token0)) ↔
      i ≠ j ∧ j < p.venues.length ∧
        ∃ bv, (forwardQuotes quote p (amountIn0 notionalUSD p.token0))[i]? =
          some (bv, some inp) ∧ inp ≠ 0) ∧
    (∀ t, t ∈ calculateRoundTrips quote gas p notionalUSD ↔
      ∃ i j, (i, j) ∈ (revRequests (forwardQuotes quote p
          (amountIn0 notionalUSD p.token0))).map (fun r => (r.1, r.2.1)) ∧
        ∃ bv out sv o2 back,
          (forwardQuotes quote p (amountIn0 notionalUSD p.token0))[i]? =
            some (bv, some out) ∧
          (forwardQuotes quote p (amountIn0 notionalUSD p.token0))[j]? =
            some (sv, o2) ∧
          quote sv p.token1 p.token0 out = some back ∧
          t = mkTrip gas p notionalUSD (amountIn0 notionalUSD p.token0) bv sv back) := by
  have hlen : (forwardQuotes quote p (amountIn0 notionalUSD p.token0)).length =
      p.venues.length := by
    simp [forwardQuotes]
  refine ⟨by simp [forwardQuotes, Function.comp_def], fun i => by simp [forwardQuotes, List.getElem?_map],
    fun i j inp => by rw [mem_revRequests, hlen], fun t => ?_⟩
  have hcalc : calculateRoundTrips quote gas p notionalUSD =
      (List.range (forwardQuotes quote p (amountIn0 notionalUSD p.token0)).length).flatMap
        (fun i => (List.range (forwardQuotes quote p
            (amountIn0 notionalUSD p.token0)).length).filterMap
          (fun j => tripAt quote gas p notionalUSD (amountIn0 notionalUSD p.token0)
            (forwardQuotes quote p (amountIn0 notionalUSD p.token0)) i j)) := by
    unfold calculateRoundTrips
    rw [if_neg (not_le.mpr hp)]
  rw [hcalc]
  constructor
  · intro ht
    rw [List.mem_flatMap] at ht
    obtain ⟨i, hi, ht⟩ := ht
    rw [List.mem_filterMap] at ht
    obtain ⟨j, hj, heq⟩ := ht
    rw [List.mem_range] at hi hj
    rw [tripAt_eq_some] at heq
    obtain ⟨hij, bv, out, sv, o2, back, hfi, h0, hfj, hq, rfl⟩ := heq
    refine ⟨i, j, ?_, bv, out, sv, o2, back, hfi, hfj, hq, rfl⟩
    rw [List.mem_map]
    refine ⟨(i, j, out), ?_, rfl⟩
    rw [mem_revRequests]
    exact ⟨hij, by rw [hlen] at hj; rwa [hlen], bv, hfi, h0⟩
  · rintro ⟨i, j, hreq, bv, out, sv, o2, back, hfi, hfj, hq, rfl⟩
    rw [List.mem_map] at hreq
    obtain ⟨r, hmem, hpr⟩ := hreq
    obtain ⟨i', j', inp⟩ := r
    simp only [Prod.mk.injEq] at hpr
    obtain ⟨h1, h2⟩ := hpr
    subst h1
    subst h2
    rw [mem_revRequests] at hmem
    obtain ⟨hij, hjlen, bv', hfi', h0⟩ := hmem
    rw [hfi] at hfi'
    have hinj : bv = bv' ∧ out = inp := by
      have h3 := hfi'
      simp only [Option.some.injEq, Prod.mk.injEq] at h3
      exact ⟨h3.1, by simpa using h3.2⟩
    obtain ⟨-, hout⟩ := hinj
    subst hout
    have hi : i' < (forwardQuotes quote p (amountIn0 notionalUSD p.token0)).length := by
      rcases List.getElem?_eq_some.mp hfi with ⟨h, -⟩
      exact h
    rw [List.mem_flatMap]
    refine ⟨i', List.mem_range.mpr hi, ?_⟩
    rw [List.mem_filterMap]
    refine ⟨j', List.mem_range.mpr hjlen, ?_⟩
    rw [tripAt_eq_some]
    exact ⟨hij, bv, out, sv, o2, back, hfi, h0, hfj, hq, rfl⟩

/-- Frictionless reciprocal stub venues (testable property "round-trip
symmetry"): both venues quote `1 asset0 → 2 asset1` forward and
`1 asset1 → 0.5 asset0` reverse, with zero fees. -/
def stubQuote : QuoteFn := fun _ tin _ a =>
  if tin.sym = 0 then some (2 * a) else some (a / 2)

/-- Pair of two reciprocal stub venues; `pr` is asset0's reference price. -/
def stubPair (pr : ℚ) : TPair := ⟨⟨0, 18, pr⟩, ⟨1, 18, 1⟩, [0, 1]⟩

theorem stub_roundTrips (notionalUSD pr gas : ℚ) (hpr : 0 < pr) :
    calculateRoundTrips stubQuote gas (stubPair pr) notionalUSD =
      if amountIn0 notionalUSD (stubPair pr).token0 = 0 then [] else
        [mkTrip gas (stubPair pr) notionalUSD
            (amountIn0 notionalUSD (stubPair pr).token0) 0 1
            (amountIn0 notionalUSD (stubPair pr).token0),
         mkTrip gas (stubPair pr) notionalUSD
            (amountIn0 notionalUSD (stubPair pr).token0) 1 0
            (amountIn0 notionalUSD (stubPair pr).token0)] := by
  have hprice : ¬ ((stubPair pr).token0.priceUSD ≤ 0) := by
    simpa [stubPair] using not_le.mpr hpr
  have hdiv : ∀ a : ℤ, 2 * a / 2 = a := fun a => Int.mul_ediv_cancel_left a (by norm_num)
  by_cases h0 : amountIn0 notionalUSD (stubPair pr).token0 = 0
  · have h0' : amountIn0 notionalUSD ⟨0, 18, pr⟩ = 0 := by simpa [stubPair] using h0
    rw [if_pos h0]
    simp only [calculateRoundTrips, if_neg hprice]
    simp [forwardQuotes, stubQuote, stubPair, tripAt, List.range_succ,
      List.filterMap_cons, h0']
  · have h0' : ¬ amountIn0 notionalUSD ⟨0, 18, pr⟩ = 0 := by simpa [stubPair] using h0
    rw [if_neg h0]
    simp only [calculateRoundTrips, if_neg hprice]
    simp [forwardQuotes, stubQuote, stubPair, tripAt, List.range_succ,
      List.filterMap_cons, h0', hdiv]

/-- C5.  Every round-trip record satisfies
`netUSD = outUSD - inUSD - gasCostUSD`,
`spreadPct = (outUSD - inUSD) / inUSD * 100` and
`netPct = netUSD / inUSD * 100`, with `inUSD`/`outUSD` the input and
round-trip output amounts converted through `token0`'s reference price; and
against the frictionless reciprocal stub pair every produced round trip has
`outUSD = inUSD` and `spreadPct = 0` exactly, for any notional, with both
ordered venue combinations produced whenever the converted input is
nonzero. -/
theorem roundTrip_formulas_and_reciprocal_stub :
    (∀ (gas : ℚ) (p : TPair) (notionalUSD : ℚ) (a0 : ℤ) (bv sv : ℕ) (back : ℤ),
      (mkTrip gas p notionalUSD a0 bv sv back).inUSD =
          formatUnits a0 p.token0.decimals * p.token0.priceUSD ∧
      (mkTrip gas p notionalUSD a0 bv sv back).outUSD =
          formatUnits back p.token0.decimals * p.token0.priceUSD ∧
      (mkTrip gas p notionalUSD a0 bv sv back).netUSD =
          (mkTrip gas p notionalUSD a0 bv sv back).outUSD -
          (mkTrip gas p notionalUSD a0 bv sv back).inUSD - gas ∧
      (mkTrip gas p notionalUSD a0 bv sv back).spreadPct =
          ((mkTrip gas p notionalUSD a0 bv sv back).outUSD -
           (mkTrip gas p notionalUSD a0 bv sv back).inUSD) /
          (mkTrip gas p notionalUSD a0 bv sv back).inUSD * 100 ∧
      (mkTrip gas p notionalUSD a0 bv sv back).netPct =
          (mkTrip gas p notionalUSD a0 bv sv back).netUSD /
          (mkTrip gas p notionalUSD a0 bv sv back).inUSD * 100) ∧
    (∀ (notionalUSD pr gas : ℚ), 0 < pr →
      (∀ t ∈ calculateRoundTrips stubQuote gas (stubPair pr) notionalUSD,
        t.outUSD = t.inUSD ∧ t.spreadPct = 0) ∧
      (amountIn0 notionalUSD (stubPair pr).token0 ≠ 0 →
        (calculateRoundTrips stubQuote gas (stubPair pr) notionalUSD).length = 2)) := by
  constructor
  · exact fun gas p notionalUSD a0 bv sv back => ⟨rfl, rfl, rfl, rfl, rfl⟩
  · intro notionalUSD pr gas hpr
    rw [stub_roundTrips notionalUSD pr gas hpr]
    constructor
    · intro t ht
      by_cases h0 : amountIn0 notionalUSD (stubPair pr).token0 = 0
      · rw [if_pos h0] at ht
        simp at ht
      · rw [if_neg h0] at ht
        simp only [List.mem_cons, List.not_mem_nil, or_false] at ht
        rcases ht with rfl | rfl <;> exact ⟨rfl, by simp [mkTrip, sub_self]⟩
    · intro h0
      rw [if_neg h0]
      rfl

theorem roundTrip_formulas_and_reciprocal_stub_witness :
    (calculateRoundTrips stubQuote 0 (stubPair 1) 5).length = 2 ∧
    (calculateRoundTrips stubQuote 0 (stubPair 1) 5).all
      (fun t => decide (t.spreadPct = 0)) = true := by
  have h := roundTrip_formulas_and_reciprocal_stub.2 5 1 0 (by norm_num)
  have hfloor : (⌊(5 : ℚ) * 10 ^ 8 + 1 / 2⌋ : ℤ) = 500000000 := by
    rw [Int.floor_eq_iff]
    norm_num
  have ha0 : amountIn0 5 (stubPair 1).token0 ≠ 0 := by
    have : amountIn0 5 (stubPair 1).token0 = 5000000000000000000 := by
      unfold amountIn0 parseUnits jsToFixed
      simp only [stubPair, show min (18 : ℕ) 8 = 8 from rfl]
      norm_num [hfloor]
    rw [this]
    norm_num
  exact ⟨h.2 ha0, List.all_eq_true.mpr (fun t ht => decide_eq_true (h.1 t ht).2)⟩

theorem calculateRoundTrips_characterization_witness :
    ((forwardQuotes zeroFwdQuote zeroFwdPair
        (amountIn0 5 zeroFwdPair.token0)).map Prod.fst = [10, 20]) ∧
    ¬ ((0, 1, (0 : ℤ)) ∈ revRequests (forwardQuotes zeroFwdQuote zeroFwdPair
        (amountIn0 5 zeroFwdPair.token0))) := by
  have h := calculateRoundTrips_characterization zeroFwdQuote 0 zeroFwdPair 5
    (by norm_num [zeroFwdPair])
  refine ⟨h.1, fun hmem => ?_⟩
  obtain ⟨-, -, bv, hfq, h0⟩ := (h.2.2.1 0 1 0).mp hmem
  exact h0 rfl

end SpreadLogger

namespace PaperLogger

/-! ## Paper-trade logger dedup (helpers/logger.js)

`lastLogged` maps a pair key to the last emitted alert's spread, direction
and timestamp; `shouldLog` decides suppression and `logOpportunity`
refreshes the entry only on emission.  The wall clock (`Date.now()`) is an
explicit parameter.  The hourly-file size guard and the async filesystem
write inside `logOpportunity` are I/O outside the dedup core modelled
here. -/

/-- One `lastLogged` entry: `{ spread, direction, ts }`. -/
structure LastLogged where
  spread : ℚ
  direction : Option String
  ts : ℤ
deriving DecidableEq

/-- An alert candidate, with the dynamically-typed `data` fields the dedup
layer reads (`pair`, `buyDex`, and the spread sources of `resolveSpread`). -/
structure AlertData where
  pair : Option String
  buyDex : Option String
  spread : Option ℚ
  netProfit : Option ℚ
  price : Option ℚ

/-- `DEDUP_SPREAD_DELTA = 0.03`. -/
def DEDUP_SPREAD_DELTA : ℚ := 3 / 100

/-- `DEDUP_COOLDOWN_MS = 10_000`. -/
def DEDUP_COOLDOWN_MS : ℤ := 10000

/-- `resolveSpread`: `parseFloat(data.spread || data.netProfit || data.price || 0)`. -/
def resolveSpread (d : AlertData) : ℚ :=
  (((d.spread).orElse fun _ => d.netProfit).orElse fun _ => d.price).getD 0

/-- The dedup key `data.pair || 'unknown'`. -/
def keyOf (d : AlertData) : String := d.pair.getD "unknown"

/-- `shouldLog` (logger.js lines 57-70), given this key's `lastLogged` entry
and the current clock: emit when no entry or the direction changed; suppress
inside the cooldown; past the cooldown, suppress when the spread moved less
than the minimum delta. -/
def shouldLog (prev : Option LastLogged) (now : ℤ) (d : AlertData) : Bool :=
  match prev with
  | none => true
  | some prev =>
      if prev.direction ≠ d.buyDex then true
      else if now - prev.ts < DEDUP_COOLDOWN_MS then false
      else if |resolveSpread d - prev.spread| < DEDUP_SPREAD_DELTA then false
      else true

/-- `updateLastLogged`: record spread, direction (`data.buyDex`) and clock
under the alert's key. -/
def updateLastLogged (st : String → Option LastLogged) (now : ℤ) (d : AlertData) :
    String → Option LastLogged :=
  fun k => if k = keyOf d then some ⟨resolveSpread d, d.buyDex, now⟩ else st k

/-- The dedup core of `logOpportunity` (logger.js lines 88-127): emit iff
`shouldLog`, and refresh the entry only on emission. -/
def logOpportunity (st : String → Option LastLogged) (now : ℤ) (d : AlertData) :
    (String → Option LastLogged) × Bool :=
  if shouldLog (st (keyOf d)) now d then (updateLastLogged st now d, true)
  else (st, false)

/-- C3 counterexample.  The claim says an alert arriving after the cooldown
has expired is emitted even when its spread is unchanged.  With a prior
same-direction alert at spread 0.5 and time 0, a candidate at time 10000
(cooldown of 10000 ms already elapsed) with the same spread is nevertheless
suppressed: the spread-delta check suppresses independently of the cooldown
(the code ORs the two conditions instead of ANDing them). -/
theorem shouldLog_suppresses_after_cooldown_cex :
    shouldLog (some ⟨1/2, some "A", 0⟩) 10000
      ⟨some "P", some "A", some (1/2), none, none⟩ = false ∧
    ¬ ((10000 : ℤ) - 0 < DEDUP_COOLDOWN_MS) := by
  constructor
  · norm_num [shouldLog, resolveSpread, DEDUP_COOLDOWN_MS, DEDUP_SPREAD_DELTA,
      Option.orElse]
  · norm_num [DEDUP_COOLDOWN_MS]

/-- C3 amended.  An alert is suppressed by the dedup check iff a prior alert
for the same pair key exists, its recorded direction equals the candidate's
buy direction, and (it fired within the cooldown window OR the spread has
moved by less than the minimum delta since it) — so two same-pair,
same-direction alerts inside the cooldown yield only the first, while after
the cooldown an alert is emitted only once its spread has moved by at least
the minimum delta or its direction flipped; `logOpportunity` emits exactly
when `shouldLog` allows and refreshes the entry only on emission. -/
theorem shouldLog_suppression_iff (prev : Option LastLogged) (now : ℤ)
    (d : AlertData) (st : String → Option LastLogged) :
    (shouldLog prev now d = false ↔
      ∃ p, prev = some p ∧ p.direction = d.buyDex ∧
        (now - p.ts < DEDUP_COOLDOWN_MS ∨
          |resolveSpread d - p.spread| < DEDUP_SPREAD_DELTA)) ∧
    ((logOpportunity st now d).2 = shouldLog (st (keyOf d)) now d) ∧
    ((logOpportunity st now d).2 = true →
      (logOpportunity st now d).1 (keyOf d) = some ⟨resolveSpread d, d.buyDex, now⟩) ∧
    ((logOpportunity st now d).2 = false → (logOpportunity st now d).1 = st) := by
  refine ⟨?_, ?_, ?_, ?_⟩
  · cases prev with
    | none => simp [shouldLog]
    | some p =>
        simp only [shouldLog]
        split_ifs with h1 h2 h3
        · simp only [show ((true : Bool) = false) ↔ False by simp, false_iff]
          rintro ⟨p', hp', hdir, -⟩
          injection hp' with e
          subst e
          exact h1 hdir
        · simp only [show ((false : Bool) = false) ↔ True by simp, true_iff]
          exact ⟨p, rfl, not_not.mp h1, Or.inl h2⟩
        · simp only [show ((false : Bool) = false) ↔ True by simp, true_iff]
          exact ⟨p, rfl, not_not.mp h1, Or.inr h3⟩
        · simp only [show ((true : Bool) = false) ↔ False by simp, false_iff]
          rintro ⟨p', hp', -, hcase⟩
          injection hp' with e
          subst e
          rcases hcase with hc | hc
          · exact h2 hc
          · exact h3 hc
  · by_cases hs : shouldLog (st (keyOf d)) now d = true
    · simp [logOpportunity, hs]
    · simp only [Bool.not_eq_true] at hs
      simp [logOpportunity, hs]
  · intro he
    by_cases hs : shouldLog (st (keyOf d)) now d = true
    · simp [logOpportunity, hs, updateLastLogged]
    · simp only [Bool.not_eq_true] at hs
      simp [logOpportunity, hs] at he
  · intro he
    by_cases hs : shouldLog (st (keyOf d)) now d = true
    · simp [logOpportunity, hs] at he
    · simp only [Bool.not_eq_true] at hs
      simp [logOpportunity, hs]

theorem shouldLog_suppression_iff_witness :
    shouldLog (some ⟨1/2, some "A", 0⟩) 20000
      ⟨some "P", some "A", some 1, none, none⟩ = true := by
  have h := (shouldLog_suppression_iff (some ⟨1/2, some "A", 0⟩) 20000
    ⟨some "P", some "A", some 1, none, none⟩ (fun _ => none)).1
  cases hb : shouldLog (some ⟨1/2, some "A", 0⟩) 20000
      ⟨some "P", some "A", some 1, none, none⟩ with
  | false =>
      obtain ⟨p, hp, hdir, hcase⟩ := h.mp hb
      injection hp with hp'
      subst hp'
      rcases hcase with hc | hc
      · norm_num [DEDUP_COOLDOWN_MS] at hc
      · rw [show resolveSpread ⟨some "P", some "A", some 1, none, none⟩ = 1 from rfl]
          at hc
        obtain ⟨-, hc2⟩ := abs_lt.mp hc
        norm_num [DEDUP_SPREAD_DELTA] at hc2
  | true => rfl

end PaperLogger

namespace MantleMonitor

/-! ## Block poller reentrancy (part of the Mantle monitor, `pollBlock`)

`pollBlock` is an async function re-entered by `setInterval`.  Its atomic
segments are delimited by its `await` points: (1) the `if (isChecking)
return` guard, then `await provider.getBlockNumber()`; (2) the synchronous
continuation that compares the block, sets `lastBlock`, sets
`isChecking = true` and dispatches `Promise.allSettled(checkPair...)`;
(3) the continuation after the pair checks settle, whose `finally` clears
`isChecking` (the `finally` also runs on the early `return` of a stale
block).  Concurrent invocations interleave at those boundaries; the model is
a small-step relation over the guard flag, `lastBlock`, and each
invocation's program counter. -/

/-- Program counter of one `pollBlock` invocation, one value per segment
between `await` points. -/
inductive TaskPC where
  | start
  | gotBlock (b : ℕ)
  | checking
  | done
deriving DecidableEq

/-- Shared monitor state plus the outstanding `pollBlock` invocations. -/
structure PollSystem where
  isChecking : Bool
  lastBlock : ℕ
  tasks : List TaskPC
deriving DecidableEq

/-- One atomic segment of one invocation. -/
inductive PollStep : PollSystem → PollSystem → Prop where
  | guardSkip (s : PollSystem) (k : ℕ) (h : s.tasks[k]? = some .start)
      (hg : s.isChecking = true) :
      PollStep s { s with tasks := s.tasks.set k .done }
  | fetchBlock (s : PollSystem) (k b : ℕ) (h : s.tasks[k]? = some .start)
      (hg : s.isChecking = false) :
      PollStep s { s with tasks := s.tasks.set k (.gotBlock b) }
  | staleBlock (s : PollSystem) (k b : ℕ) (h : s.tasks[k]? = some (.gotBlock b))
      (hb : b ≤ s.lastBlock) :
      PollStep s { s with isChecking := false, tasks := s.tasks.set k .done }
  | freshBlock (s : PollSystem) (k b : ℕ) (h : s.tasks[k]? = some (.gotBlock b))
      (hb : s.lastBlock < b) :
      PollStep s
        { s with lastBlock := b, isChecking := true, tasks := s.tasks.set k .checking }
  | finish (s : PollSystem) (k : ℕ) (h : s.tasks[k]? = some .checking) :
      PollStep s { s with isChecking := false, tasks := s.tasks.set k .done }

/-- Two timer ticks while idle, before block 1 was ever observed. -/
def pollInit : PollSystem := ⟨false, 0, [.start, .start]⟩

/-- C8 refutation by reachability.  Two `pollBlock` invocations both pass
the `isChecking` guard while their `getBlockNumber` calls are outstanding
(the flag is only set *after* that `await`); if the chain advances between
their responses (blocks 1 then 2), both enter the pair-checking phase, so
two observation cycles execute concurrently — the guard does not make
cycles non-overlapping. -/
theorem pollBlock_overlapping_cycles_reachable :
    Relation.ReflTransGen PollStep pollInit ⟨true, 2, [.checking, .checking]⟩ := by
  have s1 : PollStep pollInit ⟨false, 0, [.gotBlock 1, .start]⟩ :=
    PollStep.fetchBlock pollInit 0 1 rfl rfl
  have s2 : PollStep ⟨false, 0, [.gotBlock 1, .start]⟩
      ⟨false, 0, [.gotBlock 1, .gotBlock 2]⟩ :=
    PollStep.fetchBlock _ 1 2 rfl rfl
  have s3 : PollStep ⟨false, 0, [.gotBlock 1, .gotBlock 2]⟩
      ⟨true, 1, [.checking, .gotBlock 2]⟩ :=
    PollStep.freshBlock _ 0 1 rfl (by norm_num)
  have s4 : PollStep ⟨true, 1, [.checking, .gotBlock 2]⟩
      ⟨true, 2, [.checking, .checking]⟩ :=
    PollStep.freshBlock _ 1 2 rfl (by norm_num)
  exact Relation.ReflTransGen.trans (Relation.ReflTransGen.single s1)
    (Relation.ReflTransGen.trans (Relation.ReflTransGen.single s2)
      (Relation.ReflTransGen.trans (Relation.ReflTransGen.single s3)
        (Relation.ReflTransGen.single s4)))

end MantleMonitor

namespace ArbLogger

/-! ## Arbitrum logger statistics (arb-spread-logger.js)

`initStats` starts each pair's counters with `bestSpread: 0`; the poll loop
replaces it only when a strictly larger raw spread is observed
(`if (raw > stats.bestSpread) stats.bestSpread = raw`). -/

/-- The `bestSpread` initial value from `initStats` (line 399). -/
def bestSpreadInit : ℚ := 0

/-- The `bestSpread` update from `poll` (line 493). -/
def updateBestSpread (best raw : ℚ) : ℚ := if raw > best then raw else best

/-- `bestSpread` after a sequence of observed spreads for one pair. -/
def bestSpreadAfter (spreads : List ℚ) : ℚ :=
  spreads.foldl updateBestSpread bestSpreadInit

theorem le_foldl_updateBestSpread (l : List ℚ) (b : ℚ) :
    b ≤ l.foldl updateBestSpread b := by
  induction l generalizing b with
  | nil => simp
  | cons s t ih =>
      refine le_trans ?_ (ih (updateBestSpread b s))
      unfold updateBestSpread
      split
      · exact le_of_lt (by assumption)
      · exact le_refl b

theorem foldl_updateBestSpread_zero_of_neg (l : List ℚ) (h : ∀ s ∈ l, s < 0) :
    l.foldl updateBestSpread 0 = 0 := by
  induction l with
  | nil => rfl
  | cons s t ih =>
      have hs : s < 0 := h s (by simp)
      have hstep : updateBestSpread 0 s = 0 := by
        unfold updateBestSpread
        rw [if_neg (by linarith : ¬ s > 0)]
      simp only [List.foldl_cons, hstep]
      exact ih (fun x hx => h x (by simp [hx]))

/-- C10.  `bestSpread` starts at 0 and is only ever replaced by a strictly
larger observed spread, so the reported best spread is always nonnegative;
in particular a pair all of whose observed spreads are negative reports a
best spread of 0, not its actual (negative) maximum. -/
theorem bestSpread_nonneg (l : List ℚ) :
    0 ≤ bestSpreadAfter l ∧
    ((∀ s ∈ l, s < 0) → bestSpreadAfter l = 0) ∧
    (∀ b raw : ℚ, updateBestSpread b raw = b ∨
      (b < raw ∧ updateBestSpread b raw = raw)) := by
  refine ⟨le_foldl_updateBestSpread l 0, foldl_updateBestSpread_zero_of_neg l,
    fun b raw => ?_⟩
  unfold updateBestSpread
  split
  · exact Or.inr ⟨by assumption, rfl⟩
  · exact Or.inl rfl

theorem bestSpread_nonneg_witness :
    bestSpreadAfter [-1, -2] = 0 ∧ 0 ≤ bestSpreadAfter [-1, -2] := by
  have h := bestSpread_nonneg [-1, -2]
  exact ⟨h.2.1 (by norm_num [List.forall_mem_cons]), h.1⟩

end ArbLogger
